import Mathlib

/-
Verification of the curare curation pipeline.

This file gives a shallow embedding of the core of the repository: the
heuristic cluster classifier, the post-transport handling of LLM
classification responses, the typicality sampler and elbow-based cluster
count selection, the embedding cache, the built-in line-delimited input
adapters, and the output materializer of the CLI, together with theorems
about the properties stated in the specification.

Modelling conventions: JavaScript numbers are embedded as rationals (ℚ),
so floating-point rounding is idealized away; JSON parsing is external to
the embedded code, so line-delimited inputs are embedded post-parse as a
sum of blank / malformed / parsed-record lines; JS string operations are
embedded by structurally recursive operations on Lean strings, faithful
for the ASCII/BMP inputs the pipeline handles; the k-means library call
(ml-kmeans) and the HTTP transport are external collaborators and enter
as oracle parameters.
-/

namespace Curare

/-- The rating union type of the source: "high" | "low". -/
inductive Rating where
  | high
  | low
deriving DecidableEq, Repr

/-- The ClusterClassification record of classify/heuristic.ts. -/
structure ClusterClassification where
  tag : String
  rating : Rating
deriving DecidableEq, Repr

/-- JS regex \s on the ASCII range: space, tab, newline, carriage return,
vertical tab, form feed. -/
def isJsSpace (c : Char) : Bool :=
  c == ' ' || c == '\t' || c == '\n' || c == '\r' || c == '\x0b' || c == '\x0c'

/-- Helper for splitting a character list into maximal runs of
non-whitespace characters; `cur` is the current token, reversed. -/
def wordsAux : List Char → List Char → List String
  | [], cur => if cur.isEmpty then [] else [cur.reverse.asString]
  | c :: rest, cur =>
    if isJsSpace c then
      if cur.isEmpty then wordsAux rest []
      else cur.reverse.asString :: wordsAux rest []
    else wordsAux rest (c :: cur)

/-- JS `s.split(/\s+/).filter(w => w.length > 0)`: the whitespace-delimited
tokens of `s`. -/
def splitWords (s : String) : List String :=
  wordsAux s.data []

/-- JS `s.toLowerCase()` (ASCII-faithful). -/
def jsToLower (s : String) : String :=
  (s.data.map Char.toLower).asString

/-- The `words` local of classifyHeuristic: all samples joined with a
space, lowercased, split on whitespace, empty tokens dropped. -/
def heuristicWords (samples : List String) : List String :=
  splitWords (jsToLower (String.intercalate " " samples))

/-- The `diversity` metric of classifyHeuristic:
unique words / total words (0 when there are no words). -/
def diversity (samples : List String) : ℚ :=
  let words := heuristicWords samples
  if words.length > 0 then ((words.dedup.length : ℚ) / (words.length : ℚ)) else 0

/-- The `avgLength` metric of classifyHeuristic: mean sample character
length. -/
def avgLength (samples : List String) : ℚ :=
  (samples.foldl (fun s t => s + (t.length : ℚ)) 0) / (samples.length : ℚ)

/-- The `sophistication` metric of classifyHeuristic: fraction of words
longer than 6 characters (0 when there are no words). -/
def sophistication (samples : List String) : ℚ :=
  let words := heuristicWords samples
  if words.length > 0 then
    (((words.filter (fun w => w.length > 6)).length : ℚ) / (words.length : ℚ))
  else 0

/-- Keys of the JS `wordCounts` Map in insertion order: first occurrence
of each word. -/
def firstOccurrences (l : List String) : List String :=
  l.foldl (fun acc w => if w ∈ acc then acc else acc ++ [w]) []

/-- The `topWords` local of classifyHeuristic: the three most frequent
words longer than 4 characters, most frequent first; ties keep Map
insertion order (JS sort is stable, embedded by a stable insertion
sort). -/
def topWords (words : List String) : List String :=
  let longWords := words.filter (fun w => w.length > 4)
  let counted := (firstOccurrences longWords).map (fun w => (w, longWords.count w))
  ((List.insertionSort (fun a b : String × ℕ => b.2 ≤ a.2) counted).take 3).map Prod.fst

/-- classifyHeuristic from classify/heuristic.ts: empty sample list is
tagged "empty" and rated low; otherwise the rating is high exactly when
diversity > 0.3, mean length > 100 and sophistication > 0.15 all hold,
and the tag joins the top words with "_" (or "misc" when none qualify). -/
def classifyHeuristic (samples : List String) : ClusterClassification :=
  if samples.isEmpty then ⟨"empty", .low⟩
  else
    let words := heuristicWords samples
    let tws := topWords words
    let tag := if tws.length > 0 then String.intercalate "_" tws else "misc"
    if diversity samples > 3/10 ∧ avgLength samples > 100 ∧ sophistication samples > 3/20 then
      ⟨tag, .high⟩
    else
      ⟨tag, .low⟩

/-- The message content of one choice of a chat-completion response, as
seen by classifyWithLLM after `JSON.parse(text)`: either the content
fails to parse as JSON, or it parses and optionally carries string
fields `tag` and `rating`. The absent-choices default text of the source
(`?? '\x7b\x7d'`) parses to an object with neither field, embedded below as
`ContentJson.obj none none`. -/
inductive ContentJson where
  | malformed (raw : String)
  | obj (tag : Option String) (rating : Option String)
deriving DecidableEq, Repr

/-- The transport-successful response body consumed by classifyWithLLM:
an optional top-level error and the list of choice contents. -/
structure LLMBody where
  error : Option String
  choices : List ContentJson
deriving DecidableEq, Repr

/-- classifyWithLLM from classify/llm.ts, after the fetch call: `ok` is
`response.ok` of the transport; a non-success response throws (embedded
as `Except.error`); otherwise a top-level error yields the api_error
sentinel, a content that fails JSON parsing yields the parse_error
sentinel, and a parsed content yields tag (defaulted to "unknown") and
rating "high" exactly when the rating field is the string "high". -/
def classifyWithLLM (ok : Bool) (body : LLMBody) : Except String ClusterClassification :=
  if !ok then .error "OpenRouter error"
  else if body.error.isSome then .ok ⟨"api_error", .low⟩
  else
    match body.choices.headD (ContentJson.obj none none) with
    | .malformed _ => .ok ⟨"parse_error", .low⟩
    | .obj tag rating =>
      .ok ⟨tag.getD "unknown", if rating = some "high" then .high else .low⟩

/-- The persisted cache file content of io/cache.ts: a model tag and the
entry map (embedded as an association list from "{id}:{hash}" keys to
vectors). -/
structure CacheEntry where
  model : String
  embeddings : List (String × List ℚ)
deriving DecidableEq, Repr

namespace EmbeddingCache

/-- EmbeddingCache.load: `persisted` is the parse of the cache file
(`none` when the file is missing or unreadable). A persisted model tag
different from the constructed model tag discards the whole entry set. -/
def load (model : String) (persisted : Option CacheEntry) : CacheEntry :=
  match persisted with
  | none => ⟨model, []⟩
  | some e => if e.model ≠ model then ⟨model, []⟩ else e

/-- EmbeddingCache.get: look up the key `id ++ ":" ++ hash text`.
The md5-based content hash of the source is an external collaborator,
passed as the function `hash`. -/
def get (hash : String → String) (c : CacheEntry) (id text : String) :
    Option (List ℚ) :=
  (c.embeddings.find? (fun p => p.1 == id ++ ":" ++ hash text)).map Prod.snd

/-- EmbeddingCache.set: record a vector under `id ++ ":" ++ hash text`.
JS object assignment replaces an existing key, embedded by filtering the
old binding out before appending. -/
def set (hash : String → String) (c : CacheEntry) (id text : String)
    (embedding : List ℚ) : CacheEntry :=
  ⟨c.model, (c.embeddings.filter (fun p => p.1 ≠ id ++ ":" ++ hash text)) ++
    [(id ++ ":" ++ hash text, embedding)]⟩

end EmbeddingCache

/-- squaredDistance from cluster/kmeans.ts: sum over the indices of `a`
of the squared coordinate difference. -/
def squaredDistance (a b : List ℚ) : ℚ :=
  (List.range a.length).foldl (fun s i => s + (a.getD i 0 - b.getD i 0)^2) 0

/-- getNearestToCentroid from cluster/kmeans.ts: pair each member index
with its squared distance to the centroid, sort ascending by distance
(JS sort is stable, embedded by a stable insertion sort), take the first
`n`, return the indices. -/
def getNearestToCentroid (indices : List ℕ) (embeddings : List (List ℚ))
    (centroid : List ℚ) (n : ℕ) : List ℕ :=
  let withDistances := indices.map
    (fun i => (i, squaredDistance (embeddings.getD i []) centroid))
  let sorted := List.insertionSort (fun a b : ℕ × ℚ => a.2 ≤ b.2) withDistances
  (sorted.take n).map Prod.fst

/-- `Math.round(Math.pow(n, 1/3))`: the nearest integer to the real cube
root of `n` (round half up; float rounding idealized away). `r` is a
valid candidate exactly when `r - 1/2 ≤ n^(1/3)`, i.e.
`(2r - 1)^3 ≤ 8n`; the rounded value is the largest candidate. -/
def jsRound3 (n : ℕ) : ℕ :=
  ((List.range (n + 2)).filter
    (fun r : ℕ => decide ((2 * (r : ℤ) - 1)^3 ≤ 8 * (n : ℤ)))).foldl max 0

/-- The default upper bound of findOptimalK:
`Math.min(Math.max(3, Math.round(Math.pow(n, 1/3))), 50)`. -/
def defaultMaxK (n : ℕ) : ℕ :=
  min (max 3 (jsRound3 n)) 50

/-- The inertia computation inside findOptimalK's candidate loop: sum
over all items of the squared distance from the item's vector to its
assigned centroid. `clusters` is the per-item cluster index and
`centroids` the centroid list of the k-means result. -/
def computeInertia (embeddings : List (List ℚ)) (clusters : List ℕ)
    (centroids : List (List ℚ)) : ℚ :=
  (List.range embeddings.length).foldl
    (fun acc i =>
      acc + squaredDistance (embeddings.getD i [])
        (centroids.getD (clusters.getD i 0) []))
    0

/-- The inertia list of findOptimalK: one inertia per candidate k from
minK = 2 up to maxK, where `km k` is the external k-means run (ml-kmeans
is an out-of-scope collaborator) returning per-item cluster indices and
centroids. -/
def inertiasOf (embeddings : List (List ℚ)) (maxK : ℕ)
    (km : ℕ → List ℕ × List (List ℚ)) : List ℚ :=
  (List.range (maxK + 1 - 2)).map
    (fun i => computeInertia embeddings (km (2 + i)).1 (km (2 + i)).2)

/-- The vertical deviation of candidate index `i` from the straight line
connecting the first inertia to the last inertia, as computed in
findOptimalK's elbow loop:
`Math.abs(inertias[i] - (first + (last - first) * (i / (numPoints - 1))))`. -/
def elbowDeviation (inertias : List ℚ) (i : ℕ) : ℚ :=
  |inertias.getD i 0 -
    (inertias.getD 0 0 +
      (inertias.getD (inertias.length - 1) 0 - inertias.getD 0 0) *
        ((i : ℚ) / ((inertias.length : ℚ) - 1)))|

/-- The champion scan of findOptimalK's elbow loop: starting from
`maxDist = 0, bestK = minK`, replace the best candidate whenever a
strictly larger deviation is found. -/
def elbowScan (inertias : List ℚ) (minK : ℕ) : ℚ × ℕ :=
  (List.range inertias.length).foldl
    (fun st i =>
      if st.1 < elbowDeviation inertias i then (elbowDeviation inertias i, minK + i)
      else st)
    (0, minK)

/-- findOptimalK from cluster/kmeans.ts. The k-means library call is the
external oracle `km`; everything else (the small-corpus early return,
the default maxK, the inertia computation, and the elbow scan) is the
source's own code. The source's locals `n`, `maxK` and `minK = 2` are
inlined. -/
def findOptimalK (embeddings : List (List ℚ)) (kMax? : Option ℕ)
    (km : ℕ → List ℕ × List (List ℚ)) : ℕ :=
  if embeddings.length < 3 then min embeddings.length 2
  else if kMax?.getD (defaultMaxK embeddings.length) ≤ 2 then 2
  else if (inertiasOf embeddings (kMax?.getD (defaultMaxK embeddings.length)) km).length ≤ 1
    then 2
  else (elbowScan (inertiasOf embeddings (kMax?.getD (defaultMaxK embeddings.length)) km) 2).2

/-- The normalized item record of io/adapters.ts: id, extracted text,
and optionally the verbatim source line. -/
structure InputItem where
  id : String
  text : String
  originalLine : Option String
deriving DecidableEq, Repr

/-- One line of a line-delimited input file, as seen by an adapter's
load loop after `JSON.parse`: blank lines are skipped by the
`!line.trim()` guard, lines that fail to parse are skipped by the catch
handler, and parsed lines carry the verbatim line text and the parsed
record. JSON parsing itself is external to the embedded code. -/
inductive JsonLine (α : Type) where
  | blank
  | malformed (raw : String)
  | record (raw : String) (r : α)

/-- A parsed line of the alpaca format; each field is absent or a
string. -/
structure AlpacaRecord where
  id : Option String
  instruction : Option String
  input : Option String
  output : Option String
deriving DecidableEq, Repr

/-- A parsed message of the OAI chat-messages format. -/
structure OAIMessage where
  role : String
  content : String
deriving DecidableEq, Repr

/-- A parsed line of the OAI chat-messages format. -/
structure OAIRecord where
  id : Option String
  messages : List OAIMessage
deriving DecidableEq, Repr

/-- A parsed line of the sharegpt format; `conversations` holds each
turn's value. -/
structure ShareGPTRecord where
  id : Option String
  conversations : List String
deriving DecidableEq, Repr

/-- A parsed line of the text-jsonl (splice/generic) format. -/
structure TextRecord where
  id : Option String
  text : Option String
deriving DecidableEq, Repr

/-- JS `String(idx)` on the non-negative integer counter: its decimal
numeral. -/
def jsNatString (n : ℕ) : String :=
  Nat.repr n

/-- The decimal value of a digit character ('0' has code 48); used to
decode the numerals produced by `jsNatString`. -/
def charVal (c : Char) : ℕ :=
  c.toNat - 48

/-- Decode a big-endian list of decimal digit characters. -/
def decodeDec (l : List Char) : ℕ :=
  l.foldl (fun a c => a * 10 + charVal c) 0

/-- The body of the built-in adapter load loops for one line: skip blank
and unparsable lines, and for each parsed record either skip it or yield
an item, assigning `obj.id ?? String(idx++)` as the id. `yield?`
returns, for a kept record, its explicit id (if any), its extracted
text, and its retained original line (if any); the state is the `idx`
counter and the items produced so far. -/
def adapterLoadStep {α : Type}
    (yield? : String → α → Option (Option String × String × Option String))
    (st : ℕ × List InputItem) (line : JsonLine α) : ℕ × List InputItem :=
  match line with
  | .blank => st
  | .malformed _ => st
  | .record raw r =>
    match yield? raw r with
    | none => st
    | some (some i, text, orig) => (st.1, st.2 ++ [⟨i, text, orig⟩])
    | some (none, text, orig) => (st.1 + 1, st.2 ++ [⟨jsNatString st.1, text, orig⟩])

/-- The shared shape of the built-in line-delimited adapter load loops:
fold `adapterLoadStep` over the lines starting from `idx = 0` and no
items. -/
def adapterLoad {α : Type}
    (yield? : String → α → Option (Option String × String × Option String))
    (lines : List (JsonLine α)) : List InputItem :=
  (lines.foldl (adapterLoadStep yield?) (0, [])).2

/-- The text extraction of the alpaca adapter:
`[obj.instruction, obj.input, obj.output].filter(Boolean).join('\n\n')`
(absent fields and empty strings are dropped by `filter(Boolean)`). -/
def alpacaText (r : AlpacaRecord) : String :=
  String.intercalate "\n\n"
    (([r.instruction, r.input, r.output].filterMap (fun x => x)).filter
      (fun s => s ≠ ""))

/-- The alpaca adapter's load: every parsed record yields an item. -/
def alpacaLoad (lines : List (JsonLine AlpacaRecord)) : List InputItem :=
  adapterLoad (fun _ r => some (r.id, alpacaText r, none)) lines

/-- The sharegpt adapter's load: every parsed record yields an item
whose text joins the turns' values. -/
def sharegptLoad (lines : List (JsonLine ShareGPTRecord)) : List InputItem :=
  adapterLoad (fun _ r => some (r.id, String.intercalate "\n\n" r.conversations, none)) lines

/-- The assistant extraction of the OAI adapter: contents of the
messages whose role is "assistant". -/
def oaiAssistantTexts (r : OAIRecord) : List String :=
  (r.messages.filter (fun m => m.role == "assistant")).map OAIMessage.content

/-- The OAI adapter's load: a record yields an item only when it has at
least one assistant message; the verbatim line is retained as the
original representation. -/
def oaiLoad (lines : List (JsonLine OAIRecord)) : List InputItem :=
  adapterLoad
    (fun raw r =>
      let asst := oaiAssistantTexts r
      if asst.isEmpty then none
      else some (r.id, String.intercalate "\n\n" asst, some raw))
    lines

/-- Whether a parsed line is a record with at least one assistant
message — exactly the lines from which the OAI adapter yields an
item. -/
def oaiKeeps : JsonLine OAIRecord → Bool
  | .record _ r => !(oaiAssistantTexts r).isEmpty
  | _ => false

/-- Whether a parsed line is a well-formed record with no assistant
message — the lines the OAI adapter silently omits. -/
def oaiDropped : JsonLine OAIRecord → Bool
  | .record _ r => (oaiAssistantTexts r).isEmpty
  | _ => false

/-- The text-jsonl adapter's load: a record yields an item only when
`obj.text` is truthy (present and non-empty). -/
def textJsonlLoad (lines : List (JsonLine TextRecord)) : List InputItem :=
  adapterLoad
    (fun _ r =>
      match r.text with
      | none => none
      | some t => if t = "" then none else some (r.id, t, none))
    lines

/-- A classified cluster as consumed by the CLI's output block: its
rating and its member item ids (the other metadata fields do not affect
partitioning). -/
structure ClusterOut where
  rating : Rating
  items : List String
deriving DecidableEq, Repr

/-- One hexadecimal digit (lowercase), for JSON string escapes. -/
def hexDigit (n : ℕ) : Char :=
  "0123456789abcdef".data.getD n '0'

/-- JSON.stringify's escaping of one character inside a string
literal. -/
def jsonEscapeChar (c : Char) : String :=
  if c = '"' then "\\\""
  else if c = '\\' then "\\\\"
  else if c = '\x08' then "\\b"
  else if c = '\t' then "\\t"
  else if c = '\n' then "\\n"
  else if c = '\x0c' then "\\f"
  else if c = '\r' then "\\r"
  else if c.toNat < 32 then
    "\\u00" ++ String.mk [hexDigit (c.toNat / 16), hexDigit (c.toNat % 16)]
  else String.mk [c]

/-- A JSON string literal for `s`. -/
def jsonQuote (s : String) : String :=
  "\"" ++ String.join (s.data.map jsonEscapeChar) ++ "\""

/-- `JSON.stringify(\x7b id: item.id, text: item.text \x7d)`: the
reconstructed minimal representation used when an item has no original
line. -/
def jsStringifyItem (it : InputItem) : String :=
  "\x7b\"id\":" ++ jsonQuote it.id ++ ",\"text\":" ++ jsonQuote it.text ++ "\x7d"

/-- `items.find(i => i.id === id)` from the CLI's output block. -/
def findItem (items : List InputItem) (id : String) : Option InputItem :=
  items.find? (fun it => it.id == id)

/-- The per-member-id resolution of the CLI's output block: `null` when
the id does not resolve, otherwise the item's original line if
available, else the reconstructed representation. -/
def resolveLine (items : List InputItem) (id : String) : Option String :=
  match findItem items id with
  | none => none
  | some it => some (it.originalLine.getD (jsStringifyItem it))

/-- The lines contributed by one cluster:
`cluster.items.map(resolve).filter(Boolean)` — unresolved ids are
filtered out. -/
def clusterLines (items : List InputItem) (c : ClusterOut) : List String :=
  c.items.filterMap (resolveLine items)

/-- The `highItems` accumulator of the CLI's multi-file output: the
lines of the high-rated clusters, in cluster order. -/
def highItems (items : List InputItem) (clusters : List ClusterOut) : List String :=
  (clusters.filter (fun c => c.rating = Rating.high)).flatMap (clusterLines items)

/-- The `lowItems` accumulator of the CLI's multi-file output: the lines
of the low-rated clusters, in cluster order. -/
def lowItems (items : List InputItem) (clusters : List ClusterOut) : List String :=
  (clusters.filter (fun c => c.rating = Rating.low)).flatMap (clusterLines items)

example : classifyHeuristic [] = ⟨"empty", .low⟩ := by decide

example : (classifyHeuristic ["hi", "hello", "ok"]).rating = .low := by
  with_unfolding_all decide

example : (classifyHeuristic ["Programming programming programming code",
  "More programming and code examples"]).tag = "programming_examples" := by
  with_unfolding_all decide

/-- C5: for every non-empty sample list, classifyHeuristic returns
rating "high" if and only if lexical diversity > 0.30, mean sample
character length > 100, and the fraction of long tokens > 0.15 all hold
simultaneously; an empty sample list returns tag "empty" with rating
low. -/
theorem classifyHeuristic_spec :
    classifyHeuristic [] = ⟨"empty", Rating.low⟩ ∧
    ∀ samples : List String, samples ≠ [] →
      ((classifyHeuristic samples).rating = Rating.high ↔
        (diversity samples > 3/10 ∧ avgLength samples > 100 ∧
          sophistication samples > 3/20)) := by
  refine ⟨rfl, ?_⟩
  intro samples h
  have hne : samples.isEmpty = false := by
    cases samples
    · exact absurd rfl h
    · rfl
  unfold classifyHeuristic
  rw [hne]
  simp only [Bool.false_eq_true, if_false]
  by_cases hq : diversity samples > 3/10 ∧ avgLength samples > 100 ∧
    sophistication samples > 3/20
  · simp [hq]
  · simp [hq]

/-- Witness for C5 at the concrete sample list ["hi"]. -/
theorem classifyHeuristic_spec_witness :
    (classifyHeuristic ["hi"]).rating = Rating.high ↔
      (diversity ["hi"] > 3/10 ∧ avgLength ["hi"] > 100 ∧
        sophistication ["hi"] > 3/20) :=
  classifyHeuristic_spec.2 ["hi"] (by decide)

/-- C6: for a transport-successful response, a top-level error yields
the api_error/low verdict; a content failing JSON parsing yields the
parse_error/low verdict; a parsed rating other than "high" yields
rating low; a missing tag yields tag "unknown"; in every such case a
verdict is returned rather than an exception; a non-success transport
response raises an error with no classifier-level verdict. -/
theorem classifyWithLLM_spec :
    (∀ body : LLMBody, body.error.isSome →
        classifyWithLLM true body = .ok ⟨"api_error", Rating.low⟩) ∧
    (∀ raw rest, classifyWithLLM true ⟨none, .malformed raw :: rest⟩ =
        .ok ⟨"parse_error", Rating.low⟩) ∧
    (∀ tag rating rest, classifyWithLLM true ⟨none, .obj tag rating :: rest⟩ =
        .ok ⟨tag.getD "unknown",
          if rating = some "high" then Rating.high else Rating.low⟩) ∧
    (∀ tag rating rest, rating ≠ some "high" →
        ∃ t, classifyWithLLM true ⟨none, .obj tag rating :: rest⟩ =
          .ok ⟨t, Rating.low⟩) ∧
    (∀ body : LLMBody, ∃ v, classifyWithLLM true body = .ok v) ∧
    (∀ body : LLMBody, classifyWithLLM false body = .error "OpenRouter error") := by
  refine ⟨?_, ?_, ?_, ?_, ?_, ?_⟩
  · intro body herr
    unfold classifyWithLLM
    simp [herr]
  · intro raw rest
    rfl
  · intro tag rating rest
    rfl
  · intro tag rating rest hr
    refine ⟨tag.getD "unknown", ?_⟩
    unfold classifyWithLLM
    simp [hr]
  · intro body
    obtain ⟨err, choices⟩ := body
    cases err with
    | some e => exact ⟨⟨"api_error", Rating.low⟩, rfl⟩
    | none =>
      cases choices with
      | nil => exact ⟨⟨"unknown", Rating.low⟩, rfl⟩
      | cons c rest =>
        cases c with
        | malformed raw => exact ⟨⟨"parse_error", Rating.low⟩, rfl⟩
        | obj tag rating =>
          exact ⟨⟨tag.getD "unknown",
            if rating = some "high" then Rating.high else Rating.low⟩, rfl⟩
  · intro body
    rfl

/-- Witness for C6: a body with a top-level error yields the api_error
sentinel. -/
theorem classifyWithLLM_spec_witness :
    classifyWithLLM true ⟨some "boom", [ContentJson.obj (some "t") (some "high")]⟩ =
      .ok ⟨"api_error", Rating.low⟩ :=
  classifyWithLLM_spec.1 ⟨some "boom", [ContentJson.obj (some "t") (some "high")]⟩ (by decide)

/-- C4: a cache constructed with model M whose load finds a persisted
tag M2 ≠ M treats the entire stored entry set as empty, so get never
returns a vector recorded under M2 — invalidation is whole-cache. -/
theorem cache_model_invalidation :
    ∀ (M M2 : String) (E : List (String × List ℚ)) (hash : String → String),
      M ≠ M2 →
      (EmbeddingCache.load M (some ⟨M2, E⟩)).embeddings = [] ∧
      ∀ id text,
        EmbeddingCache.get hash (EmbeddingCache.load M (some ⟨M2, E⟩)) id text = none := by
  intro M M2 E hash hne
  have hld : EmbeddingCache.load M (some ⟨M2, E⟩) = ⟨M, []⟩ := by
    unfold EmbeddingCache.load
    simp [Ne.symm hne]
  refine ⟨by rw [hld], ?_⟩
  intro id text
  rw [hld]
  rfl

/-- Witness for C4 at models "model-v1" / "model-v2" and a concrete
stored entry set. -/
theorem cache_model_invalidation_witness :
    EmbeddingCache.get (fun _ => "h")
      (EmbeddingCache.load "model-v1" (some ⟨"model-v2", [("id1:h", [1, 2, 3])]⟩))
      "id1" "text" = none :=
  (cache_model_invalidation "model-v1" "model-v2" [("id1:h", [1, 2, 3])]
    (fun _ => "h") (by decide)).2 "id1" "text"

instance : IsTotal (ℕ × ℚ) (fun a b => a.2 ≤ b.2) :=
  ⟨fun a b => le_total a.2 b.2⟩

instance : IsTrans (ℕ × ℚ) (fun a b => a.2 ≤ b.2) :=
  ⟨fun _ _ _ hab hbc => le_trans hab hbc⟩

/-- C7: getNearestToCentroid returns up to n member indices ordered by
non-decreasing squared Euclidean distance to the centroid, returns all
members in that order when the cluster has fewer than n members, and on
the specification's concrete example returns [0, 2, 3]. -/
theorem getNearestToCentroid_spec :
    (∀ (indices : List ℕ) (embeddings : List (List ℚ)) (centroid : List ℚ) (n : ℕ),
      (getNearestToCentroid indices embeddings centroid n).length = min n indices.length ∧
      (∀ j ∈ getNearestToCentroid indices embeddings centroid n, j ∈ indices) ∧
      List.Sorted (· ≤ ·) ((getNearestToCentroid indices embeddings centroid n).map
        (fun i => squaredDistance (embeddings.getD i []) centroid)) ∧
      (indices.length ≤ n →
        (getNearestToCentroid indices embeddings centroid n).Perm indices)) ∧
    getNearestToCentroid [0, 1, 2, 3, 4]
      [[0, 0], [5, 5], [1, 1], [2, 2], [10, 10]] [0, 0] 3 = [0, 2, 3] := by
  constructor
  · intro indices embeddings centroid n
    set d : ℕ → ℚ := fun i => squaredDistance (embeddings.getD i []) centroid with hd
    set pairs : List (ℕ × ℚ) := indices.map (fun i => (i, d i)) with hpairs
    set sorted : List (ℕ × ℚ) :=
      List.insertionSort (fun a b : ℕ × ℚ => a.2 ≤ b.2) pairs with hsorted
    have hres : getNearestToCentroid indices embeddings centroid n =
        (sorted.take n).map Prod.fst := rfl
    have hlen : sorted.length = indices.length := by
      rw [hsorted, List.length_insertionSort, hpairs, List.length_map]
    have hmem_pairs : ∀ p ∈ sorted, p.2 = d p.1 := by
      intro p hp
      have : p ∈ pairs := (List.mem_insertionSort _).mp hp
      obtain ⟨i, _, rfl⟩ := List.mem_map.mp this
      rfl
    refine ⟨?_, ?_, ?_, ?_⟩
    · rw [hres, List.length_map, List.length_take, hlen]
    · intro j hj
      rw [hres] at hj
      obtain ⟨p, hp, rfl⟩ := List.mem_map.mp hj
      have hp2 : p ∈ pairs := (List.mem_insertionSort _).mp (List.mem_of_mem_take hp)
      obtain ⟨i, hi, rfl⟩ := List.mem_map.mp hp2
      exact hi
    · rw [hres, List.map_map]
      have hsort : List.Sorted (fun a b : ℕ × ℚ => a.2 ≤ b.2) sorted :=
        List.sorted_insertionSort _ pairs
      have htake : List.Pairwise (fun a b : ℕ × ℚ => a.2 ≤ b.2) (sorted.take n) :=
        List.Pairwise.sublist (List.take_sublist n sorted) hsort
      have hcongr : (sorted.take n).map ((fun i => d i) ∘ Prod.fst) =
          (sorted.take n).map Prod.snd := by
        refine List.map_congr_left ?_
        intro p hp
        exact (hmem_pairs p (List.mem_of_mem_take hp)).symm
      rw [hcongr]
      exact List.pairwise_map.mpr htake
    · intro hle
      have htake : sorted.take n = sorted :=
        List.take_of_length_le (by rw [hlen]; exact hle)
      rw [hres, htake]
      have : (sorted.map Prod.fst).Perm (pairs.map Prod.fst) :=
        (List.perm_insertionSort _ pairs).map Prod.fst
      refine this.trans ?_
      have hmapid : pairs.map Prod.fst = indices := by
        rw [hpairs, List.map_map]
        exact List.map_id' indices
      rw [hmapid]
  · with_unfolding_all decide

/-- Witness for C7: a single-member cluster with n = 3 returns all
members. -/
theorem getNearestToCentroid_spec_witness :
    (getNearestToCentroid [7] [[1]] [0] 3).Perm [7] :=
  (getNearestToCentroid_spec.1 [7] [[1]] [0] 3).2.2.2 (by decide)

theorem elbowDeviation_zero (inertias : List ℚ) : elbowDeviation inertias 0 = 0 := by
  unfold elbowDeviation
  simp

theorem elbowScan_foldl_shape (inertias : List ℚ) (minK : ℕ) :
    ∀ (l : List ℕ) (st : ℚ × ℕ),
      (l.foldl (fun st i =>
          if st.1 < elbowDeviation inertias i then (elbowDeviation inertias i, minK + i)
          else st) st = st) ∨
      (∃ i ∈ l, l.foldl (fun st i =>
          if st.1 < elbowDeviation inertias i then (elbowDeviation inertias i, minK + i)
          else st) st = (elbowDeviation inertias i, minK + i)) := by
  intro l
  induction l with
  | nil => intro st; exact Or.inl rfl
  | cons a t ih =>
    intro st
    rw [List.foldl_cons]
    by_cases ha : st.1 < elbowDeviation inertias a
    · rw [if_pos ha]
      rcases ih (elbowDeviation inertias a, minK + a) with h | ⟨i, hi, h⟩
      · exact Or.inr ⟨a, List.mem_cons_self a t, h⟩
      · exact Or.inr ⟨i, List.mem_cons_of_mem a hi, h⟩
    · rw [if_neg ha]
      rcases ih st with h | ⟨i, hi, h⟩
      · exact Or.inl h
      · exact Or.inr ⟨i, List.mem_cons_of_mem a hi, h⟩

theorem elbowScan_foldl_fst_mono (inertias : List ℚ) (minK : ℕ) :
    ∀ (l : List ℕ) (st : ℚ × ℕ),
      st.1 ≤ (l.foldl (fun st i =>
        if st.1 < elbowDeviation inertias i then (elbowDeviation inertias i, minK + i)
        else st) st).1 := by
  intro l
  induction l with
  | nil => intro st; exact le_refl _
  | cons a t ih =>
    intro st
    rw [List.foldl_cons]
    by_cases ha : st.1 < elbowDeviation inertias a
    · rw [if_pos ha]
      exact le_trans (le_of_lt ha) (ih _)
    · rw [if_neg ha]
      exact ih st

theorem elbowScan_foldl_dominates (inertias : List ℚ) (minK : ℕ) :
    ∀ (l : List ℕ) (st : ℚ × ℕ), ∀ j ∈ l,
      elbowDeviation inertias j ≤ (l.foldl (fun st i =>
        if st.1 < elbowDeviation inertias i then (elbowDeviation inertias i, minK + i)
        else st) st).1 := by
  intro l
  induction l with
  | nil => intro st j hj; exact absurd hj (List.not_mem_nil j)
  | cons a t ih =>
    intro st j hj
    rw [List.foldl_cons]
    rcases List.mem_cons.mp hj with rfl | hjt
    · by_cases ha : st.1 < elbowDeviation inertias j
      · rw [if_pos ha]
        exact elbowScan_foldl_fst_mono inertias minK t _
      · rw [if_neg ha]
        exact le_trans (not_lt.mp ha) (elbowScan_foldl_fst_mono inertias minK t st)
    · by_cases ha : st.1 < elbowDeviation inertias a
      · rw [if_pos ha]; exact ih _ j hjt
      · rw [if_neg ha]; exact ih st j hjt

theorem elbowScan_spec (inertias : List ℚ) (minK : ℕ) :
    ∃ i, (i = 0 ∨ i < inertias.length) ∧
      elbowScan inertias minK = (elbowDeviation inertias i, minK + i) ∧
      ∀ j < inertias.length,
        elbowDeviation inertias j ≤ elbowDeviation inertias i := by
  have hdom := elbowScan_foldl_dominates inertias minK (List.range inertias.length) (0, minK)
  rcases elbowScan_foldl_shape inertias minK (List.range inertias.length) (0, minK)
    with h | ⟨i, hi, h⟩
  · refine ⟨0, Or.inl rfl, ?_, ?_⟩
    · unfold elbowScan
      rw [h, elbowDeviation_zero, Nat.add_zero]
    · intro j hj
      have hj2 := hdom j (List.mem_range.mpr hj)
      rw [h] at hj2
      rw [elbowDeviation_zero]
      exact hj2
  · refine ⟨i, Or.inr (List.mem_range.mp hi), ?_, ?_⟩
    · unfold elbowScan
      rw [h]
    · intro j hj
      have hj2 := hdom j (List.mem_range.mpr hj)
      rw [h] at hj2
      exact hj2

theorem inertiasOf_length (embeddings : List (List ℚ)) (maxK : ℕ)
    (km : ℕ → List ℕ × List (List ℚ)) :
    (inertiasOf embeddings maxK km).length = maxK + 1 - 2 := by
  unfold inertiasOf
  rw [List.length_map, List.length_range]

/-- C8: findOptimalK on fewer than 3 vectors returns min(n, 2); on n ≥ 3
it uses minK = 2 and maxK = the caller-supplied bound or
clamp(round(n^(1/3)), 3, 50); it returns minK independently of any
clustering result when maxK ≤ minK, and otherwise returns a value in
[2, maxK]. -/
theorem findOptimalK_range :
    ∀ (embeddings : List (List ℚ)) (kMax? : Option ℕ)
      (km : ℕ → List ℕ × List (List ℚ)),
      (embeddings.length < 3 →
        findOptimalK embeddings kMax? km = min embeddings.length 2) ∧
      (3 ≤ embeddings.length →
        (kMax?.getD (defaultMaxK embeddings.length) ≤ 2 →
          findOptimalK embeddings kMax? km = 2 ∧
          ∀ km2, findOptimalK embeddings kMax? km2 = 2) ∧
        (2 < kMax?.getD (defaultMaxK embeddings.length) →
          2 ≤ findOptimalK embeddings kMax? km ∧
          findOptimalK embeddings kMax? km ≤
            kMax?.getD (defaultMaxK embeddings.length))) := by
  intro embeddings kMax? km
  constructor
  · intro hlt
    unfold findOptimalK
    rw [if_pos hlt]
  · intro hge
    have hnlt : ¬ embeddings.length < 3 := not_lt.mpr hge
    constructor
    · intro hmax
      constructor
      · unfold findOptimalK
        rw [if_neg hnlt, if_pos hmax]
      · intro km2
        unfold findOptimalK
        rw [if_neg hnlt, if_pos hmax]
    · intro hmax
      have hnle : ¬ kMax?.getD (defaultMaxK embeddings.length) ≤ 2 := not_le.mpr hmax
      have hlen : (inertiasOf embeddings (kMax?.getD (defaultMaxK embeddings.length)) km).length =
          kMax?.getD (defaultMaxK embeddings.length) + 1 - 2 := inertiasOf_length _ _ _
      have hnp : ¬ (inertiasOf embeddings (kMax?.getD (defaultMaxK embeddings.length)) km).length ≤ 1 := by
        rw [hlen]; omega
      obtain ⟨i, hi, hscan, _⟩ :=
        elbowScan_spec (inertiasOf embeddings (kMax?.getD (defaultMaxK embeddings.length)) km) 2
      have hval : findOptimalK embeddings kMax? km = 2 + i := by
        unfold findOptimalK
        rw [if_neg hnlt, if_neg hnle, if_neg hnp, hscan]
      rw [hval]
      rcases hi with rfl | hilt
      · omega
      · rw [hlen] at hilt
        omega

/-- Witness for C8: a single-vector corpus returns min(1, 2) = 1. -/
theorem findOptimalK_range_witness :
    findOptimalK [[(0 : ℚ)]] none (fun _ => ([], [])) =
      min (List.length [[(0 : ℚ)]]) 2 :=
  (findOptimalK_range [[(0 : ℚ)]] none (fun _ => ([], []))).1 (by decide)

/-- C9: for n ≥ 3 and maxK > 2, the k chosen by findOptimalK maximizes
the absolute vertical (inertia-axis) deviation from the straight line
connecting the inertia at k = 2 to the inertia at k = maxK, over all
candidates k in [2, maxK]. -/
theorem findOptimalK_elbow_max :
    ∀ (embeddings : List (List ℚ)) (kMax? : Option ℕ)
      (km : ℕ → List ℕ × List (List ℚ)),
      3 ≤ embeddings.length →
      2 < kMax?.getD (defaultMaxK embeddings.length) →
      ∀ k, 2 ≤ k → k ≤ kMax?.getD (defaultMaxK embeddings.length) →
        elbowDeviation
          (inertiasOf embeddings (kMax?.getD (defaultMaxK embeddings.length)) km) (k - 2) ≤
        elbowDeviation
          (inertiasOf embeddings (kMax?.getD (defaultMaxK embeddings.length)) km)
          (findOptimalK embeddings kMax? km - 2) := by
  intro embeddings kMax? km hge hmax k hk2 hkmax
  have hnlt : ¬ embeddings.length < 3 := not_lt.mpr hge
  have hnle : ¬ kMax?.getD (defaultMaxK embeddings.length) ≤ 2 := not_le.mpr hmax
  have hlen : (inertiasOf embeddings (kMax?.getD (defaultMaxK embeddings.length)) km).length =
      kMax?.getD (defaultMaxK embeddings.length) + 1 - 2 := inertiasOf_length _ _ _
  have hnp : ¬ (inertiasOf embeddings (kMax?.getD (defaultMaxK embeddings.length)) km).length ≤ 1 := by
    rw [hlen]; omega
  obtain ⟨i, hi, hscan, hdom⟩ :=
    elbowScan_spec (inertiasOf embeddings (kMax?.getD (defaultMaxK embeddings.length)) km) 2
  have hval : findOptimalK embeddings kMax? km = 2 + i := by
    unfold findOptimalK
    rw [if_neg hnlt, if_neg hnle, if_neg hnp, hscan]
  rw [hval]
  have hsub : 2 + i - 2 = i := by omega
  rw [hsub]
  apply hdom
  rw [hlen]
  omega

/-- Witness for C9 on a 10-vector corpus (maxK defaults to 3) at
candidate k = 2. -/
theorem findOptimalK_elbow_max_witness :
    elbowDeviation
      (inertiasOf (List.replicate 10 [(0 : ℚ)])
        ((none : Option ℕ).getD (defaultMaxK (List.replicate 10 [(0 : ℚ)]).length))
        (fun _ => ([], []))) (2 - 2) ≤
    elbowDeviation
      (inertiasOf (List.replicate 10 [(0 : ℚ)])
        ((none : Option ℕ).getD (defaultMaxK (List.replicate 10 [(0 : ℚ)]).length))
        (fun _ => ([], [])))
      (findOptimalK (List.replicate 10 [(0 : ℚ)]) none (fun _ => ([], [])) - 2) :=
  findOptimalK_elbow_max (List.replicate 10 [(0 : ℚ)]) none (fun _ => ([], []))
    (by decide) (by decide) 2 (by decide) (by decide)

theorem toDigitsCore_append :
    ∀ (f n : ℕ) (acc : List Char),
      Nat.toDigitsCore 10 f n acc = Nat.toDigitsCore 10 f n [] ++ acc := by
  intro f
  induction f with
  | zero => intro n acc; simp [Nat.toDigitsCore]
  | succ f ih =>
    intro n acc
    by_cases h : n / 10 = 0
    · simp [Nat.toDigitsCore, h]
    · simp only [Nat.toDigitsCore, if_neg h]
      rw [ih (n / 10) (Nat.digitChar (n % 10) :: acc),
        ih (n / 10) [Nat.digitChar (n % 10)], List.append_assoc,
        List.singleton_append]

theorem toDigitsCore_fuel :
    ∀ (f1 f2 n : ℕ) (acc : List Char), n < f1 → n < f2 →
      Nat.toDigitsCore 10 f1 n acc = Nat.toDigitsCore 10 f2 n acc := by
  intro f1
  induction f1 with
  | zero => intro f2 n acc h1; exact absurd h1 (Nat.not_lt_zero n)
  | succ f1 ih =>
    intro f2 n acc h1 h2
    cases f2 with
    | zero => exact absurd h2 (Nat.not_lt_zero n)
    | succ f2 =>
      by_cases h : n / 10 = 0
      · simp [Nat.toDigitsCore, h]
      · simp only [Nat.toDigitsCore, if_neg h]
        have hpos : 0 < n := by
          rcases Nat.eq_zero_or_pos n with rfl | hp
          · exact absurd rfl h
          · exact hp
        have hdiv : n / 10 < n := Nat.div_lt_self hpos (by norm_num)
        exact ih f2 (n / 10) _ (by omega) (by omega)

theorem charVal_digitChar : ∀ d, d < 10 → charVal (Nat.digitChar d) = d := by decide

theorem decode_toDigits (n : ℕ) : decodeDec (Nat.toDigits 10 n) = n := by
  induction n using Nat.strong_induction_on with
  | _ n ih =>
    by_cases h : n / 10 = 0
    · have hn : n < 10 := by
        rcases Nat.lt_or_ge n 10 with hlt | hge
        · exact hlt
        · exact absurd h (by
            have : 0 < n / 10 := Nat.div_pos hge (by norm_num)
            omega)
      unfold Nat.toDigits
      simp only [Nat.toDigitsCore, if_pos h]
      show 0 * 10 + charVal (Nat.digitChar (n % 10)) = n
      rw [charVal_digitChar (n % 10) (Nat.mod_lt n (by norm_num))]
      omega
    · have hpos : 0 < n := by
        rcases Nat.eq_zero_or_pos n with rfl | hp
        · exact absurd rfl h
        · exact hp
      have hdiv : n / 10 < n := Nat.div_lt_self hpos (by norm_num)
      unfold Nat.toDigits
      simp only [Nat.toDigitsCore, if_neg h]
      rw [toDigitsCore_append n (n / 10) [Nat.digitChar (n % 10)]]
      rw [toDigitsCore_fuel n (n / 10 + 1) (n / 10) [] hdiv (Nat.lt_succ_self _)]
      have hrec : Nat.toDigitsCore 10 (n / 10 + 1) (n / 10) [] = Nat.toDigits 10 (n / 10) := rfl
      rw [hrec]
      unfold decodeDec
      rw [List.foldl_append]
      show (Nat.toDigits 10 (n / 10)).foldl (fun a c => a * 10 + charVal c) 0 * 10 +
        charVal (Nat.digitChar (n % 10)) = n
      have hih : (Nat.toDigits 10 (n / 10)).foldl (fun a c => a * 10 + charVal c) 0 = n / 10 :=
        ih (n / 10) hdiv
      rw [hih, charVal_digitChar (n % 10) (Nat.mod_lt n (by norm_num))]
      omega

theorem jsNatString_injective : Function.Injective jsNatString := by
  intro m n h
  have hd : Nat.toDigits 10 m = Nat.toDigits 10 n := by
    have hdata := congrArg String.data h
    simpa [jsNatString, Nat.repr, List.asString] using hdata
  calc m = decodeDec (Nat.toDigits 10 m) := (decode_toDigits m).symm
    _ = decodeDec (Nat.toDigits 10 n) := by rw [hd]
    _ = n := decode_toDigits n

theorem adapterLoad_go {α : Type}
    (f : String → α → Option (Option String × String × Option String))
    (lines : List (JsonLine α)) :
    ∀ (idx : ℕ) (acc : List InputItem),
      (∀ raw r y, JsonLine.record raw r ∈ lines → f raw r = some y → y.1 = none) →
      ∃ (m : ℕ) (produced : List InputItem),
        lines.foldl (adapterLoadStep f) (idx, acc) = (idx + m, acc ++ produced) ∧
        produced.map InputItem.id = (List.range' idx m).map jsNatString := by
  induction lines with
  | nil =>
    intro idx acc _
    exact ⟨0, [], by simp, by simp⟩
  | cons line rest ih =>
    intro idx acc h
    have hrest : ∀ raw r y, JsonLine.record raw r ∈ rest → f raw r = some y → y.1 = none :=
      fun raw r y hm hy => h raw r y (List.mem_cons_of_mem _ hm) hy
    cases line with
    | blank =>
      rw [List.foldl_cons]
      exact ih idx acc hrest
    | malformed raw =>
      rw [List.foldl_cons]
      exact ih idx acc hrest
    | record raw r =>
      rw [List.foldl_cons]
      cases hy : f raw r with
      | none =>
        simp only [adapterLoadStep, hy]
        exact ih idx acc hrest
      | some y =>
        obtain ⟨o, text, orig⟩ := y
        have hid : o = none := h raw r (o, text, orig) (List.mem_cons_self _ _) hy
        subst hid
        simp only [adapterLoadStep, hy]
        obtain ⟨m, produced, heq, hids⟩ :=
          ih (idx + 1) (acc ++ [⟨jsNatString idx, text, orig⟩]) hrest
        refine ⟨m + 1, ⟨jsNatString idx, text, orig⟩ :: produced, ?_, ?_⟩
        · rw [heq]
          have h1 : idx + 1 + m = idx + (m + 1) := by omega
          rw [h1, List.append_assoc, List.singleton_append]
        · rw [List.map_cons, hids, List.range'_succ, List.map_cons]

theorem adapterLoad_seq {α : Type}
    (f : String → α → Option (Option String × String × Option String))
    (lines : List (JsonLine α))
    (h : ∀ raw r y, JsonLine.record raw r ∈ lines → f raw r = some y → y.1 = none) :
    (adapterLoad f lines).map InputItem.id =
      (List.range (adapterLoad f lines).length).map jsNatString ∧
    ((adapterLoad f lines).map InputItem.id).Nodup := by
  obtain ⟨m, produced, heq, hids⟩ := adapterLoad_go f lines 0 [] h
  have hload : adapterLoad f lines = produced := by
    unfold adapterLoad
    rw [heq]
    simp
  have hlen : (adapterLoad f lines).length = m := by
    rw [hload]
    have := congrArg List.length hids
    rw [List.length_map, List.length_map, List.length_range'] at this
    exact this
  constructor
  · rw [hlen, hload, hids, List.range_eq_range']
  · rw [hload, hids]
    exact List.Nodup.map jsNatString_injective (List.nodup_range' 0 m)

/-- C3 counterexample: for the alpaca adapter, a record without an
explicit id receives sequence number "0", and a later record with
explicit id "0" collides with it, so the produced ids are not pairwise
distinct. -/
theorem adapter_ids_can_collide :
    (alpacaLoad
      [JsonLine.record "l1" ⟨none, some "a", none, some "b"⟩,
       JsonLine.record "l2" ⟨some "0", some "c", none, some "d"⟩]).map InputItem.id =
      ["0", "0"] ∧
    ¬ ((alpacaLoad
      [JsonLine.record "l1" ⟨none, some "a", none, some "b"⟩,
       JsonLine.record "l2" ⟨some "0", some "c", none, some "d"⟩]).map InputItem.id).Nodup := by
  constructor
  · rfl
  · decide

/-- C3 (amended): for each built-in line-delimited adapter, when no
record provides an explicit identifier, the adapter assigns the
deterministic sequence numbers "0", "1", … in order, and the produced
ids are pairwise distinct; explicit ids are passed through unchanged,
so a corpus with explicit ids can produce colliding ids. -/
theorem adapters_assign_sequence_ids :
    (∀ lines : List (JsonLine AlpacaRecord),
      (∀ raw r, JsonLine.record raw r ∈ lines → r.id = none) →
        (alpacaLoad lines).map InputItem.id =
          (List.range (alpacaLoad lines).length).map jsNatString ∧
        ((alpacaLoad lines).map InputItem.id).Nodup) ∧
    (∀ lines : List (JsonLine ShareGPTRecord),
      (∀ raw r, JsonLine.record raw r ∈ lines → r.id = none) →
        (sharegptLoad lines).map InputItem.id =
          (List.range (sharegptLoad lines).length).map jsNatString ∧
        ((sharegptLoad lines).map InputItem.id).Nodup) ∧
    (∀ lines : List (JsonLine OAIRecord),
      (∀ raw r, JsonLine.record raw r ∈ lines → r.id = none) →
        (oaiLoad lines).map InputItem.id =
          (List.range (oaiLoad lines).length).map jsNatString ∧
        ((oaiLoad lines).map InputItem.id).Nodup) ∧
    (∀ lines : List (JsonLine TextRecord),
      (∀ raw r, JsonLine.record raw r ∈ lines → r.id = none) →
        (textJsonlLoad lines).map InputItem.id =
          (List.range (textJsonlLoad lines).length).map jsNatString ∧
        ((textJsonlLoad lines).map InputItem.id).Nodup) := by
  refine ⟨?_, ?_, ?_, ?_⟩
  · intro lines h
    refine adapterLoad_seq _ lines ?_
    intro raw r y hm hy
    have := Option.some.inj hy
    rw [← this]
    exact h raw r hm
  · intro lines h
    refine adapterLoad_seq _ lines ?_
    intro raw r y hm hy
    have := Option.some.inj hy
    rw [← this]
    exact h raw r hm
  · intro lines h
    refine adapterLoad_seq _ lines ?_
    intro raw r y hm hy
    by_cases he : (oaiAssistantTexts r).isEmpty
    · rw [if_pos he] at hy
      exact absurd hy (by simp)
    · rw [if_neg he] at hy
      have := Option.some.inj hy
      rw [← this]
      exact h raw r hm
  · intro lines h
    refine adapterLoad_seq _ lines ?_
    intro raw r y hm hy
    cases ht : r.text with
    | none =>
      rw [ht] at hy
      exact absurd hy (by simp)
    | some t =>
      have hy2 : (if t = "" then none else some (r.id, t, none)) = some y := by
        rw [ht] at hy
        exact hy
      by_cases he : t = ""
      · rw [if_pos he] at hy2
        exact absurd hy2 (by simp)
      · rw [if_neg he] at hy2
        have := Option.some.inj hy2
        rw [← this]
        exact h raw r hm

/-- Witness for C3 (amended): a two-record alpaca corpus without
explicit ids gets ids ["0", "1"], pairwise distinct. -/
theorem adapters_assign_sequence_ids_witness :
    (alpacaLoad
      [JsonLine.record "l1" ⟨none, some "a", none, some "b"⟩,
       JsonLine.record "l2" ⟨none, some "c", none, some "d"⟩]).map InputItem.id =
      (List.range (alpacaLoad
        [JsonLine.record "l1" ⟨none, some "a", none, some "b"⟩,
         JsonLine.record "l2" ⟨none, some "c", none, some "d"⟩]).length).map jsNatString :=
  (adapters_assign_sequence_ids.1
    [JsonLine.record "l1" ⟨none, some "a", none, some "b"⟩,
     JsonLine.record "l2" ⟨none, some "c", none, some "d"⟩]
    (by
      intro raw r hm
      rcases List.mem_cons.mp hm with h | hm2
      · cases h; rfl
      · rcases List.mem_cons.mp hm2 with h | hm3
        · cases h; rfl
        · exact absurd hm3 (List.not_mem_nil _))).1

theorem oaiLoad_foldl_length (lines : List (JsonLine OAIRecord)) :
    ∀ st : ℕ × List InputItem,
      ((lines.foldl (adapterLoadStep
        (fun raw r =>
          if (oaiAssistantTexts r).isEmpty then none
          else some (r.id, String.intercalate "\n\n" (oaiAssistantTexts r), some raw)))
        st).2).length = st.2.length + lines.countP oaiKeeps := by
  induction lines with
  | nil => intro st; simp
  | cons line rest ih =>
    intro st
    rw [List.foldl_cons, List.countP_cons]
    cases line with
    | blank =>
      simp only [adapterLoadStep]
      rw [ih st]
      simp [oaiKeeps]
    | malformed raw =>
      simp only [adapterLoadStep]
      rw [ih st]
      simp [oaiKeeps]
    | record raw r =>
      by_cases he : (oaiAssistantTexts r).isEmpty
      · have hstep : adapterLoadStep
            (fun raw r =>
              if (oaiAssistantTexts r).isEmpty then none
              else some (r.id, String.intercalate "\n\n" (oaiAssistantTexts r), some raw))
            st (JsonLine.record raw r) = st := by
          simp only [adapterLoadStep, if_pos he]
        rw [hstep, ih st]
        simp [oaiKeeps, he]
      · have hkeep : oaiKeeps (JsonLine.record raw r) = true := by
          simp [oaiKeeps, he]
        rw [hkeep]
        cases hid : r.id with
        | some i =>
          have hstep : adapterLoadStep
              (fun raw r =>
                if (oaiAssistantTexts r).isEmpty then none
                else some (r.id, String.intercalate "\n\n" (oaiAssistantTexts r), some raw))
              st (JsonLine.record raw r) =
              (st.1, st.2 ++ [⟨i, String.intercalate "\n\n" (oaiAssistantTexts r), some raw⟩]) := by
            simp only [adapterLoadStep, if_neg he, hid]
          rw [hstep, ih]
          simp
          omega
        | none =>
          have hstep : adapterLoadStep
              (fun raw r =>
                if (oaiAssistantTexts r).isEmpty then none
                else some (r.id, String.intercalate "\n\n" (oaiAssistantTexts r), some raw))
              st (JsonLine.record raw r) =
              (st.1 + 1, st.2 ++
                [⟨jsNatString st.1, String.intercalate "\n\n" (oaiAssistantTexts r), some raw⟩]) := by
            simp only [adapterLoadStep, if_neg he, hid]
          rw [hstep, ih]
          simp
          omega

theorem oaiLoad_foldl_filter (lines : List (JsonLine OAIRecord)) :
    ∀ st : ℕ × List InputItem,
      (lines.filter (fun l => !oaiDropped l)).foldl (adapterLoadStep
        (fun raw r =>
          if (oaiAssistantTexts r).isEmpty then none
          else some (r.id, String.intercalate "\n\n" (oaiAssistantTexts r), some raw)))
        st =
      lines.foldl (adapterLoadStep
        (fun raw r =>
          if (oaiAssistantTexts r).isEmpty then none
          else some (r.id, String.intercalate "\n\n" (oaiAssistantTexts r), some raw)))
        st := by
  induction lines with
  | nil => intro st; rfl
  | cons line rest ih =>
    intro st
    cases line with
    | blank =>
      rw [List.filter_cons]
      simp only [oaiDropped, Bool.not_false, if_pos]
      rw [List.foldl_cons, List.foldl_cons]
      exact ih _
    | malformed raw =>
      rw [List.filter_cons]
      simp only [oaiDropped, Bool.not_false, if_pos]
      rw [List.foldl_cons, List.foldl_cons]
      exact ih _
    | record raw r =>
      by_cases he : (oaiAssistantTexts r).isEmpty
      · have hdrop : (!oaiDropped (JsonLine.record raw r)) = false := by
          simp [oaiDropped, he]
        rw [List.filter_cons, hdrop]
        simp only [Bool.false_eq_true, if_false]
        rw [List.foldl_cons]
        have hstep : adapterLoadStep
            (fun raw r =>
              if (oaiAssistantTexts r).isEmpty then none
              else some (r.id, String.intercalate "\n\n" (oaiAssistantTexts r), some raw))
            st (JsonLine.record raw r) = st := by
          simp only [adapterLoadStep, if_pos he]
        rw [hstep]
        exact ih st
      · have hdrop : (!oaiDropped (JsonLine.record raw r)) = true := by
          simp [oaiDropped, he]
        rw [List.filter_cons, hdrop]
        simp only [if_pos]
        rw [List.foldl_cons, List.foldl_cons]
        exact ih _

/-- C10: the OAI adapter yields an item for a line only if the parsed
record has at least one assistant-role message: the loaded item count
equals the number of such lines, removing the well-formed
no-assistant lines does not change the load at all (they are silently
omitted, not turned into empty-text items), and a concrete well-formed
line with only system/user messages loads to zero items (fewer than the
number of well-formed lines). -/
theorem oaiLoad_assistant_only :
    (∀ lines : List (JsonLine OAIRecord),
      (oaiLoad lines).length = lines.countP oaiKeeps) ∧
    (∀ lines : List (JsonLine OAIRecord),
      oaiLoad (lines.filter (fun l => !oaiDropped l)) = oaiLoad lines) ∧
    oaiLoad [JsonLine.record "x" ⟨none, [⟨"system", "s"⟩, ⟨"user", "u"⟩]⟩] = [] := by
  refine ⟨?_, ?_, rfl⟩
  · intro lines
    have := oaiLoad_foldl_length lines (0, [])
    simpa [oaiLoad, adapterLoad] using this
  · intro lines
    have := oaiLoad_foldl_filter lines (0, [])
    simp only [oaiLoad, adapterLoad]
    rw [this]

/-- C1 counterexample: when a cluster's member id "ghost" does not
resolve against the loaded item set, the materializer still produces the
partition output, with the unresolved member silently absent from both
partitions — no fatal error is raised (the materialization is total). -/
theorem unresolvable_id_dropped_not_fatal :
    resolveLine [⟨"a", "t", some "la"⟩] "ghost" = none ∧
    highItems [⟨"a", "t", some "la"⟩] [⟨Rating.high, ["a", "ghost"]⟩] = ["la"] ∧
    lowItems [⟨"a", "t", some "la"⟩] [⟨Rating.high, ["a", "ghost"]⟩] = [] := by
  refine ⟨rfl, ?_, rfl⟩
  decide

theorem clusterLines_filter_resolvable (items : List InputItem) :
    ∀ ids : List String,
      (ids.filter (fun i => (findItem items i).isSome)).filterMap (resolveLine items) =
        ids.filterMap (resolveLine items) := by
  intro ids
  induction ids with
  | nil => rfl
  | cons a t ih =>
    by_cases h : (findItem items a).isSome
    · obtain ⟨it, hit⟩ := Option.isSome_iff_exists.mp h
      have hres : resolveLine items a = some (it.originalLine.getD (jsStringifyItem it)) := by
        unfold resolveLine
        rw [hit]
      rw [List.filter_cons_of_pos (by simp [h]), List.filterMap_cons_some hres,
        List.filterMap_cons_some hres, ih]
    · have hnone : findItem items a = none := Option.not_isSome_iff_eq_none.mp h
      have hres : resolveLine items a = none := by
        unfold resolveLine
        rw [hnone]
      rw [List.filter_cons_of_neg (by simp [h]), List.filterMap_cons_none hres, ih]

/-- C1 (amended): during output materialization, a cluster member id
that cannot be re-resolved against the loaded item set is silently
skipped — removing all unresolvable member ids leaves both partition
outputs unchanged, and no error is raised (the materializer is a total
function). -/
theorem materializer_skips_unresolvable_ids :
    ∀ (items : List InputItem) (clusters : List ClusterOut),
      highItems items (clusters.map (fun c =>
        ⟨c.rating, c.items.filter (fun i => (findItem items i).isSome)⟩)) =
        highItems items clusters ∧
      lowItems items (clusters.map (fun c =>
        ⟨c.rating, c.items.filter (fun i => (findItem items i).isSome)⟩)) =
        lowItems items clusters := by
  intro items clusters
  induction clusters with
  | nil => exact ⟨rfl, rfl⟩
  | cons c cs ih =>
    have hlines : clusterLines items
        ⟨c.rating, c.items.filter (fun i => (findItem items i).isSome)⟩ =
        clusterLines items c := by
      unfold clusterLines
      exact clusterLines_filter_resolvable items c.items
    constructor
    · unfold highItems
      rw [List.map_cons, List.filter_cons, List.filter_cons]
      by_cases hr : c.rating = Rating.high
      · rw [if_pos (by simpa using hr), if_pos (by simpa using hr),
          List.flatMap_cons, List.flatMap_cons, hlines]
        have := ih.1
        unfold highItems at this
        rw [this]
      · rw [if_neg (by simpa using hr), if_neg (by simpa using hr)]
        exact ih.1
    · unfold lowItems
      rw [List.map_cons, List.filter_cons, List.filter_cons]
      by_cases hr : c.rating = Rating.low
      · rw [if_pos (by simpa using hr), if_pos (by simpa using hr),
          List.flatMap_cons, List.flatMap_cons, hlines]
        have := ih.2
        unfold lowItems at this
        rw [this]
      · rw [if_neg (by simpa using hr), if_neg (by simpa using hr)]
        exact ih.2

theorem count_filterMap_key {α : Type} (f : α → Option String) :
    ∀ (l : List α) (s : String),
      (l.filterMap f).count s = l.countP (fun a => f a == some s) := by
  intro l
  induction l with
  | nil => intro s; rfl
  | cons a t ih =>
    intro s
    rw [List.countP_cons]
    cases h : f a with
    | none =>
      rw [List.filterMap_cons_none h, ih s]
      simp
    | some x =>
      rw [List.filterMap_cons_some h, List.count_cons, ih s]
      simp

theorem two_mem_le_countP {α : Type} (p : α → Bool) :
    ∀ (l : List α) (a b : α), a ∈ l → b ∈ l → a ≠ b →
      p a → p b → 2 ≤ l.countP p := by
  intro l
  induction l with
  | nil => intro a b ha; exact absurd ha (List.not_mem_nil a)
  | cons x t ih =>
    intro a b ha hb hne hpa hpb
    rw [List.countP_cons]
    rcases List.mem_cons.mp ha with rfl | hat
    · rcases List.mem_cons.mp hb with rfl | hbt
      · exact absurd rfl hne
      · have h1 : 0 < t.countP p := List.countP_pos_iff.mpr ⟨b, hbt, hpb⟩
        rw [if_pos hpa]
        omega
    · rcases List.mem_cons.mp hb with rfl | hbt
      · have h1 : 0 < t.countP p := List.countP_pos_iff.mpr ⟨a, hat, hpa⟩
        rw [if_pos hpb]
        omega
      · have h2 := ih a b hat hbt hne hpa hpb
        omega

theorem findItem_self :
    ∀ (items : List InputItem), (items.map InputItem.id).Nodup →
      ∀ it ∈ items, findItem items it.id = some it := by
  intro items
  induction items with
  | nil => intro _ it h; exact absurd h (List.not_mem_nil it)
  | cons a t ih =>
    intro hnd it h
    rw [List.map_cons, List.nodup_cons] at hnd
    rcases List.mem_cons.mp h with rfl | hmem
    · unfold findItem
      rw [List.find?_cons_of_pos _ (by simp)]
    · have hne : a.id ≠ it.id := by
        intro he
        exact hnd.1 (he ▸ List.mem_map_of_mem InputItem.id hmem)
      unfold findItem
      rw [List.find?_cons_of_neg _ (by simp [hne])]
      exact ih hnd.2 it hmem

theorem resolveLine_of_item (items : List InputItem)
    (hnd : (items.map InputItem.id).Nodup)
    (it : InputItem) (hmem : it ∈ items) (ln : String)
    (hln : it.originalLine = some ln) :
    resolveLine items it.id = some ln := by
  unfold resolveLine
  rw [findItem_self items hnd it hmem]
  show some (it.originalLine.getD (jsStringifyItem it)) = some ln
  rw [hln]
  rfl

theorem resolve_pred_eq (items : List InputItem)
    (hnd : (items.map InputItem.id).Nodup)
    (hall : ∀ x ∈ items, x.originalLine.isSome)
    (hlines : (items.filterMap InputItem.originalLine).Nodup)
    (it : InputItem) (hmem : it ∈ items) (ln : String)
    (hln : it.originalLine = some ln) :
    ∀ id, (resolveLine items id == some ln) = (id == it.id) := by
  intro id
  by_cases hid : id = it.id
  · subst hid
    rw [resolveLine_of_item items hnd it hmem ln hln]
    simp
  · cases hr : resolveLine items id with
    | none => simp [hid]
    | some x =>
      have hfind : ∃ it2, findItem items id = some it2 ∧
          x = it2.originalLine.getD (jsStringifyItem it2) := by
        unfold resolveLine at hr
        cases hf : findItem items id with
        | none => rw [hf] at hr; exact absurd hr (by simp)
        | some it2 =>
          rw [hf] at hr
          exact ⟨it2, rfl, (Option.some.inj hr).symm⟩
      obtain ⟨it2, hf, hx⟩ := hfind
      have hmem2 : it2 ∈ items := List.mem_of_find?_eq_some hf
      have hid2 : it2.id = id := by
        have := List.find?_some hf
        exact eq_of_beq this
      obtain ⟨ln2, hln2⟩ := Option.isSome_iff_exists.mp (hall it2 hmem2)
      have hx2 : x = ln2 := by rw [hx, hln2]; rfl
      subst hx2
      have hneq : it2 ≠ it := by
        intro he
        rw [he] at hid2
        exact hid (hid2.symm)
      have hlnne : x ≠ ln := by
        intro he
        subst he
        have h2 : 2 ≤ items.countP (fun y => y.originalLine == some x) :=
          two_mem_le_countP _ items it2 it hmem2 hmem hneq
            (by simp [hln2]) (by simp [hln])
        have h1 : (items.filterMap InputItem.originalLine).count x ≤ 1 :=
          List.nodup_iff_count_le_one.mp hlines x
        rw [count_filterMap_key InputItem.originalLine items x] at h1
        omega
      simp [hid, hlnne]

theorem flatMap_lines_count (items : List InputItem) :
    ∀ (cs : List ClusterOut) (l : String),
      ((cs.flatMap (clusterLines items)).count l) =
        (cs.flatMap ClusterOut.items).countP (fun id => resolveLine items id == some l) := by
  intro cs
  induction cs with
  | nil => intro l; rfl
  | cons c t ih =>
    intro l
    rw [List.flatMap_cons, List.flatMap_cons, List.count_append, List.countP_append, ih l]
    have : (clusterLines items c).count l =
        c.items.countP (fun id => resolveLine items id == some l) :=
      count_filterMap_key (resolveLine items) c.items l
    rw [this]

theorem countP_filter_ratings (p : String → Bool) :
    ∀ cs : List ClusterOut,
      ((cs.filter (fun c => c.rating = Rating.high)).flatMap ClusterOut.items).countP p +
      ((cs.filter (fun c => c.rating = Rating.low)).flatMap ClusterOut.items).countP p =
      (cs.flatMap ClusterOut.items).countP p := by
  intro cs
  induction cs with
  | nil => rfl
  | cons c t ih =>
    rw [List.filter_cons, List.filter_cons, List.flatMap_cons]
    cases hr : c.rating with
    | high =>
      rw [if_pos (by simp [hr]), if_neg (by simp [hr]), List.flatMap_cons,
        List.countP_append, List.countP_append]
      omega
    | low =>
      rw [if_neg (by simp [hr]), if_pos (by simp [hr]), List.flatMap_cons,
        List.countP_append, List.countP_append]
      omega

/-- C2 counterexample: two loaded items share id "0" (both carry an
original line); id re-resolution always finds the first, so the first
item's line is emitted into both partition files while the second
item's line is emitted into neither. -/
theorem partition_duplicate_id_crosses_files :
    ([⟨"0", "a", some "lineA"⟩, ⟨"0", "b", some "lineB"⟩] : List InputItem).all
      (fun it => it.originalLine.isSome) = true ∧
    "lineA" ∈ highItems [⟨"0", "a", some "lineA"⟩, ⟨"0", "b", some "lineB"⟩]
      [⟨Rating.high, ["0"]⟩, ⟨Rating.low, ["0"]⟩] ∧
    "lineA" ∈ lowItems [⟨"0", "a", some "lineA"⟩, ⟨"0", "b", some "lineB"⟩]
      [⟨Rating.high, ["0"]⟩, ⟨Rating.low, ["0"]⟩] ∧
    "lineB" ∉ highItems [⟨"0", "a", some "lineA"⟩, ⟨"0", "b", some "lineB"⟩]
      [⟨Rating.high, ["0"]⟩, ⟨Rating.low, ["0"]⟩] ∧
    "lineB" ∉ lowItems [⟨"0", "a", some "lineA"⟩, ⟨"0", "b", some "lineB"⟩]
      [⟨Rating.high, ["0"]⟩, ⟨Rating.low, ["0"]⟩] := by
  decide

/-- C2 (amended): for a line-delimited corpus in which every loaded item
carries an original representation, provided item ids are pairwise
distinct, original lines are pairwise distinct, and the clusters' member
id lists form a partition of the item ids, every line written to the
partition files equals byte-for-byte some input line; every item's line
appears in exactly one of the two partition files, the one matching its
cluster's rating; and no input line appears in both partition files. -/
theorem partition_roundtrip :
    ∀ (items : List InputItem) (clusters : List ClusterOut),
      (∀ it ∈ items, it.originalLine.isSome) →
      (items.map InputItem.id).Nodup →
      (items.filterMap InputItem.originalLine).Nodup →
      (clusters.flatMap ClusterOut.items).Perm (items.map InputItem.id) →
      (∀ l, (l ∈ highItems items clusters ∨ l ∈ lowItems items clusters) →
        ∃ it ∈ items, it.originalLine = some l) ∧
      (∀ it ∈ items, ∀ l, it.originalLine = some l →
        ((highItems items clusters).count l + (lowItems items clusters).count l = 1 ∧
         ∀ c ∈ clusters, it.id ∈ c.items →
           ((c.rating = Rating.high →
              (highItems items clusters).count l = 1 ∧
              (lowItems items clusters).count l = 0) ∧
            (c.rating = Rating.low →
              (lowItems items clusters).count l = 1 ∧
              (highItems items clusters).count l = 0)))) ∧
      (∀ l, ¬ (l ∈ highItems items clusters ∧ l ∈ lowItems items clusters)) := by
  intro items clusters hall hnd hlines hperm
  have hmemline : ∀ l, (l ∈ highItems items clusters ∨ l ∈ lowItems items clusters) →
      ∃ it ∈ items, it.originalLine = some l := by
    intro l hl
    have hres : ∃ id, resolveLine items id = some l := by
      rcases hl with h | h
      · obtain ⟨c, _, hlc⟩ := List.mem_flatMap.mp h
        obtain ⟨id, _, hr⟩ := List.mem_filterMap.mp hlc
        exact ⟨id, hr⟩
      · obtain ⟨c, _, hlc⟩ := List.mem_flatMap.mp h
        obtain ⟨id, _, hr⟩ := List.mem_filterMap.mp hlc
        exact ⟨id, hr⟩
    obtain ⟨id, hr⟩ := hres
    unfold resolveLine at hr
    cases hf : findItem items id with
    | none => rw [hf] at hr; exact absurd hr (by simp)
    | some it2 =>
      rw [hf] at hr
      have hmem2 : it2 ∈ items := List.mem_of_find?_eq_some hf
      obtain ⟨ln2, hln2⟩ := Option.isSome_iff_exists.mp (hall it2 hmem2)
      refine ⟨it2, hmem2, ?_⟩
      have hgd : it2.originalLine.getD (jsStringifyItem it2) = l := Option.some.inj hr
      rw [hln2] at hgd
      rw [hln2]
      simpa using hgd
  have hcountP : ∀ it ∈ items, ∀ l, it.originalLine = some l →
      ∀ X : List String,
        X.countP (fun id => resolveLine items id == some l) = X.count it.id := by
    intro it hmem l hln X
    have hpred := resolve_pred_eq items hnd hall hlines it hmem l hln
    calc X.countP (fun id => resolveLine items id == some l)
        = X.countP (fun id => id == it.id) :=
          List.countP_congr (fun x _ => by rw [hpred x])
      _ = X.count it.id := rfl
  have hcount : ∀ it ∈ items, ∀ l, it.originalLine = some l →
      (highItems items clusters).count l =
        ((clusters.filter (fun c => c.rating = Rating.high)).flatMap
          ClusterOut.items).count it.id ∧
      (lowItems items clusters).count l =
        ((clusters.filter (fun c => c.rating = Rating.low)).flatMap
          ClusterOut.items).count it.id := by
    intro it hmem l hln
    constructor
    · unfold highItems
      rw [flatMap_lines_count items _ l]
      exact hcountP it hmem l hln _
    · unfold lowItems
      rw [flatMap_lines_count items _ l]
      exact hcountP it hmem l hln _
  have hsum : ∀ it ∈ items, ∀ l, it.originalLine = some l →
      (highItems items clusters).count l + (lowItems items clusters).count l = 1 := by
    intro it hmem l hln
    obtain ⟨h1, h2⟩ := hcount it hmem l hln
    rw [h1, h2]
    have h3 : ((clusters.filter (fun c => c.rating = Rating.high)).flatMap
          ClusterOut.items).count it.id +
        ((clusters.filter (fun c => c.rating = Rating.low)).flatMap
          ClusterOut.items).count it.id =
        (clusters.flatMap ClusterOut.items).count it.id :=
      countP_filter_ratings (fun x => x == it.id) clusters
    have h4 : (clusters.flatMap ClusterOut.items).count it.id =
        (items.map InputItem.id).count it.id := hperm.count_eq it.id
    have h5 : (items.map InputItem.id).count it.id = 1 :=
      List.count_eq_one_of_mem hnd (List.mem_map_of_mem InputItem.id hmem)
    omega
  refine ⟨hmemline, ?_, ?_⟩
  · intro it hmem l hln
    refine ⟨hsum it hmem l hln, ?_⟩
    intro c hc hidmem
    obtain ⟨h1, h2⟩ := hcount it hmem l hln
    have hs := hsum it hmem l hln
    constructor
    · intro hr
      have hpos : 0 < ((clusters.filter (fun c => c.rating = Rating.high)).flatMap
          ClusterOut.items).count it.id :=
        List.count_pos_iff.mpr
          (List.mem_flatMap.mpr ⟨c, List.mem_filter.mpr ⟨hc, by simp [hr]⟩, hidmem⟩)
      omega
    · intro hr
      have hpos : 0 < ((clusters.filter (fun c => c.rating = Rating.low)).flatMap
          ClusterOut.items).count it.id :=
        List.count_pos_iff.mpr
          (List.mem_flatMap.mpr ⟨c, List.mem_filter.mpr ⟨hc, by simp [hr]⟩, hidmem⟩)
      omega
  · intro l hboth
    obtain ⟨hh, hl⟩ := hboth
    obtain ⟨it, hmem, hln⟩ := hmemline l (Or.inl hh)
    have hs := hsum it hmem l hln
    have p1 : 0 < (highItems items clusters).count l := List.count_pos_iff.mpr hh
    have p2 : 0 < (lowItems items clusters).count l := List.count_pos_iff.mpr hl
    omega

/-- Witness for C2 (amended) on a two-item corpus with distinct ids and
distinct lines: the line of the high-rated item does not appear in both
partition files. -/
theorem partition_roundtrip_witness :
    ¬ ("lA" ∈ highItems [⟨"0", "a", some "lA"⟩, ⟨"1", "b", some "lB"⟩]
        [⟨Rating.high, ["0"]⟩, ⟨Rating.low, ["1"]⟩] ∧
       "lA" ∈ lowItems [⟨"0", "a", some "lA"⟩, ⟨"1", "b", some "lB"⟩]
        [⟨Rating.high, ["0"]⟩, ⟨Rating.low, ["1"]⟩]) :=
  (partition_roundtrip [⟨"0", "a", some "lA"⟩, ⟨"1", "b", some "lB"⟩]
    [⟨Rating.high, ["0"]⟩, ⟨Rating.low, ["1"]⟩]
    (by decide) (by decide) (by decide) (by decide)).2.2 "lA"

end Curare
